import Mathlib

/-!
Verification of the Crowd-Sourced AI Detective claim pipeline.

The definitions below are a shallow embedding of the TypeScript Supabase edge
functions of the repository:

* `supabase/functions/process-claim/agent-logic.ts` — the six-stage agent
  pipeline and the reliability scorer;
* `supabase/functions/community-verify/index.ts` — community verification
  submission and the consensus analysis;
* `supabase/functions/clarification-manager/index.ts` — clarification
  requests (create / respond / list pending);
* the real-time progress tracking function — the run-status projection
  (`completion_percentage`).

Machine floats are modelled by `ℚ` (all constants in the source are small
decimal literals, so the arithmetic is exact), millisecond timestamps by `ℤ`,
and database reads/writes by explicit state passing over Lean lists.
-/

namespace AIDetective

/-- `Math.max(0, Math.min(1, x))` — the clamp used throughout the source. -/
def clamp01 (x : ℚ) : ℚ := max 0 (min 1 x)

/-! ## Reliability scorer (`executeReliabilityScorer`, agent-logic.ts)

`previous_outputs.<stage>?.confidence || 0.5` : the stage's entry may be
absent (the optional chaining yields `undefined`), and JavaScript `||`
replaces any falsy value — `undefined` or the number `0` — by the default.
`jsOrDefault` models exactly that for an optional rational in `[0,1]`. -/

/-- JavaScript `v || d` for `v` an optional number: `undefined` and `0` are
falsy and give the default `d`. -/
def jsOrDefault (v : Option ℚ) (d : ℚ) : ℚ :=
  match v with
  | none => d
  | some x => if x = 0 then d else x

/-- The `confidence` values visible to the scorer in `previous_outputs`:
`none` models a stage whose output (or its `confidence` field) is missing. -/
structure PreviousOutputs where
  content_analysis : Option ℚ
  fact_checking : Option ℚ
  source_validation : Option ℚ
  cross_referencing : Option ℚ
  claim_detection : Option ℚ
deriving DecidableEq, Repr

/-- The five factor scores extracted by the scorer. -/
structure FactorScores where
  content_quality : ℚ
  fact_verification : ℚ
  source_credibility : ℚ
  cross_reference : ℚ
  claim_detection : ℚ
deriving DecidableEq, Repr

/-- `const factors = { ... previous_outputs.x?.confidence || 0.5 ... }`. -/
def extractFactors (p : PreviousOutputs) : FactorScores where
  content_quality := jsOrDefault p.content_analysis (1/2)
  fact_verification := jsOrDefault p.fact_checking (1/2)
  source_credibility := jsOrDefault p.source_validation (1/2)
  cross_reference := jsOrDefault p.cross_referencing (1/2)
  claim_detection := jsOrDefault p.claim_detection (1/2)

/-- `Object.keys(factors).reduce((sum, f) => sum + factors[f] * weights[f], 0)`
with the fixed weights `{content_quality: 0.15, fact_verification: 0.35,
source_credibility: 0.25, cross_reference: 0.15, claim_detection: 0.10}`. -/
def reliabilityWeightedSum (f : FactorScores) : ℚ :=
  f.content_quality * (15/100) + f.fact_verification * (35/100) +
    f.source_credibility * (25/100) + f.cross_reference * (15/100) +
    f.claim_detection * (10/100)

/-- `reliability_score: Math.max(0, Math.min(1, reliabilityScore))`. -/
def executeReliabilityScorer (p : PreviousOutputs) : ℚ :=
  clamp01 (reliabilityWeightedSum (extractFactors p))

/-- Modelled from the spec claim C1 wording: the score the claim says the
scorer returns — the weighted sum of the five confidences as presented in the
prior stage outputs, clamped to `[0,1]`.  Used only to compare against
`executeReliabilityScorer`. -/
def specClaimedScore (c1 c2 c3 c4 c5 : ℚ) : ℚ :=
  clamp01 (c1 * (15/100) + c2 * (35/100) + c3 * (25/100) + c4 * (15/100) +
    c5 * (10/100))

theorem clamp01_eq_self {x : ℚ} (h0 : 0 ≤ x) (h1 : x ≤ 1) : clamp01 x = x := by
  unfold clamp01
  rw [min_eq_right h1, max_eq_right h0]

theorem jsOrDefault_of_pos {x : ℚ} (h : 0 < x) (d : ℚ) :
    jsOrDefault (some x) d = x := by
  show (if x = 0 then d else x) = x
  rw [if_neg (ne_of_gt h)]

theorem jsOrDefault_default {v : Option ℚ} (h : v = none ∨ v = some 0)
    (d : ℚ) : jsOrDefault v d = d := by
  rcases h with h | h <;> subst h <;> simp [jsOrDefault]

/-- C1, counterexample: with all five prior confidences present and equal to
`0`, the scorer returns `1/2` (each `|| 0.5` fallback fires on the falsy `0`),
not the clamped weighted sum `0` of the presented confidences. -/
theorem C1_counterexample_zero_confidences :
    executeReliabilityScorer ⟨some 0, some 0, some 0, some 0, some 0⟩ = 1/2 ∧
      specClaimedScore 0 0 0 0 0 = 0 ∧ (1/2 : ℚ) ≠ 0 := by
  refine ⟨?_, ?_, by norm_num⟩
  · norm_num [executeReliabilityScorer, extractFactors, jsOrDefault,
      reliabilityWeightedSum, clamp01]
  · norm_num [specClaimedScore, clamp01]

/-- C1, amended: for five prior-stage confidences that are strictly positive
and at most `1`, the scorer returns exactly the weighted sum with the fixed
weights (the clamp is the identity there), and the result lies in `[0,1]`. -/
theorem C1_weighted_sum_amended (c1 c2 c3 c4 c5 : ℚ)
    (h1 : 0 < c1) (h1u : c1 ≤ 1) (h2 : 0 < c2) (h2u : c2 ≤ 1)
    (h3 : 0 < c3) (h3u : c3 ≤ 1) (h4 : 0 < c4) (h4u : c4 ≤ 1)
    (h5 : 0 < c5) (h5u : c5 ≤ 1) :
    executeReliabilityScorer ⟨some c1, some c2, some c3, some c4, some c5⟩ =
        c1 * (15/100) + c2 * (35/100) + c3 * (25/100) + c4 * (15/100) +
          c5 * (10/100) ∧
      0 ≤ executeReliabilityScorer
          ⟨some c1, some c2, some c3, some c4, some c5⟩ ∧
      executeReliabilityScorer
          ⟨some c1, some c2, some c3, some c4, some c5⟩ ≤ 1 := by
  have hsum0 : 0 ≤ c1 * (15/100) + c2 * (35/100) + c3 * (25/100) +
      c4 * (15/100) + c5 * (10/100) := by positivity
  have hb1 : c1 * (15/100) ≤ 15/100 := by nlinarith
  have hb2 : c2 * (35/100) ≤ 35/100 := by nlinarith
  have hb3 : c3 * (25/100) ≤ 25/100 := by nlinarith
  have hb4 : c4 * (15/100) ≤ 15/100 := by nlinarith
  have hb5 : c5 * (10/100) ≤ 10/100 := by nlinarith
  have hsum1 : c1 * (15/100) + c2 * (35/100) + c3 * (25/100) +
      c4 * (15/100) + c5 * (10/100) ≤ 1 := by linarith
  have hval : executeReliabilityScorer
      ⟨some c1, some c2, some c3, some c4, some c5⟩ =
      c1 * (15/100) + c2 * (35/100) + c3 * (25/100) + c4 * (15/100) +
        c5 * (10/100) := by
    unfold executeReliabilityScorer extractFactors reliabilityWeightedSum
    rw [jsOrDefault_of_pos h1, jsOrDefault_of_pos h2, jsOrDefault_of_pos h3,
      jsOrDefault_of_pos h4, jsOrDefault_of_pos h5]
    exact clamp01_eq_self hsum0 hsum1
  refine ⟨hval, ?_, ?_⟩ <;> rw [hval]
  · exact hsum0
  · exact hsum1

/-- Witness for C1 at a concrete positive assignment. -/
theorem C1_weighted_sum_amended_witness :
    executeReliabilityScorer
        ⟨some (4/5), some (3/5), some (1/2), some 1, some (7/10)⟩ =
      (4/5) * (15/100) + (3/5) * (35/100) + (1/2) * (25/100) +
        1 * (15/100) + (7/10) * (10/100) :=
  (C1_weighted_sum_amended (4/5) (3/5) (1/2) 1 (7/10)
    (by norm_num) (by norm_num) (by norm_num) (by norm_num) (by norm_num)
    (by norm_num) (by norm_num) (by norm_num) (by norm_num) (by norm_num)).1

/-- C10: any prior stage whose confidence is missing or equal to `0`
contributes the fallback factor `0.5` to the weighted sum. -/
theorem C10_zero_or_missing_confidence_gives_half (p : PreviousOutputs) :
    ((p.content_analysis = none ∨ p.content_analysis = some 0) →
       (extractFactors p).content_quality = 1/2) ∧
    ((p.fact_checking = none ∨ p.fact_checking = some 0) →
       (extractFactors p).fact_verification = 1/2) ∧
    ((p.source_validation = none ∨ p.source_validation = some 0) →
       (extractFactors p).source_credibility = 1/2) ∧
    ((p.cross_referencing = none ∨ p.cross_referencing = some 0) →
       (extractFactors p).cross_reference = 1/2) ∧
    ((p.claim_detection = none ∨ p.claim_detection = some 0) →
       (extractFactors p).claim_detection = 1/2) :=
  ⟨fun h => jsOrDefault_default h _, fun h => jsOrDefault_default h _,
    fun h => jsOrDefault_default h _, fun h => jsOrDefault_default h _,
    fun h => jsOrDefault_default h _⟩

/-- Witness for C10: a map with three missing and two zero confidences; all
five factors are `0.5`. -/
theorem C10_zero_or_missing_confidence_gives_half_witness :
    (extractFactors ⟨none, some 0, none, some 0, none⟩).content_quality
        = 1/2 ∧
      (extractFactors ⟨none, some 0, none, some 0, none⟩).fact_verification
        = 1/2 ∧
      (extractFactors ⟨none, some 0, none, some 0, none⟩).source_credibility
        = 1/2 ∧
      (extractFactors ⟨none, some 0, none, some 0, none⟩).cross_reference
        = 1/2 ∧
      (extractFactors ⟨none, some 0, none, some 0, none⟩).claim_detection
        = 1/2 := by
  have h := C10_zero_or_missing_confidence_gives_half
    ⟨none, some 0, none, some 0, none⟩
  exact ⟨h.1 (Or.inl rfl), h.2.1 (Or.inr rfl), h.2.2.1 (Or.inl rfl),
    h.2.2.2.1 (Or.inr rfl), h.2.2.2.2 (Or.inl rfl)⟩

/-! ## Community verification consensus
(`analyzeConsensus` and the handler of community-verify/index.ts)

Each verification carries a verdict and a `confidence_score`; each verifier
has the hard-coded weight `1.0`.  `analyzeConsensus` groups the verifications
by verdict (`verdictCounts`), accumulates `totalWeight` and the weighted
score `Σ verdictScore·confidence·weight`, picks the dominant verdict by a
`reduce` over the groups in first-appearance order, and declares consensus
iff there are at least `3` verifications and the dominant group holds at
least `0.6` of the total weight. -/

/-- The five accepted verdict strings. -/
inductive Verdict where
  | vTrue
  | vFalse
  | mixed
  | misleading
  | unverified
deriving DecidableEq, Repr

/-- The `switch (verdict)` mapping verdicts to numeric anchors. -/
def verdictScore : Verdict → ℚ
  | .vTrue => 9/10
  | .vFalse => 1/10
  | .mixed => 1/2
  | .misleading => 3/10
  | .unverified => 1/2

/-- One community verification of a claim. -/
structure Verification where
  verdict : Verdict
  confidence_score : ℚ
deriving DecidableEq, Repr

/-- `const weight = 1.0` — every verifier counts equally. -/
def verifierWeight : ℚ := 1

/-- `totalWeight += weight` accumulated over all verifications. -/
def totalWeight (vs : List Verification) : ℚ :=
  vs.foldl (fun t _ => t + verifierWeight) 0

/-- `weightedScore += verdictScore * confidence * weight` accumulated over
all verifications. -/
def weightedScoreSum (vs : List Verification) : ℚ :=
  vs.foldl
    (fun s v => s + verdictScore v.verdict * v.confidence_score *
      verifierWeight) 0

/-- `verdictCounts[verdict].weight` — the accumulated weight of one verdict
group. -/
def groupWeight (vs : List Verification) (w : Verdict) : ℚ :=
  ((vs.filter fun v => v.verdict = w).length : ℚ) * verifierWeight

/-- The verdicts in first-appearance order — the key order of the
`verdictCounts` object that `Object.entries` iterates. -/
def presentVerdicts (vs : List Verification) : List Verdict :=
  vs.foldl (fun acc v => if v.verdict ∈ acc then acc else acc ++ [v.verdict])
    []

/-- Accumulator of the `reduce` that finds the dominant verdict. -/
structure DominantAcc where
  verdict : Option Verdict
  weight : ℚ
deriving DecidableEq, Repr

/-- `Object.entries(verdictCounts).reduce((max, [verdict, data]) =>
data.weight > max.weight ? {verdict, ...data} : max,
{verdict: null, weight: 0})`. -/
def dominantFold (vs : List Verification) : DominantAcc :=
  (presentVerdicts vs).foldl
    (fun m w =>
      if groupWeight vs w > m.weight then ⟨some w, groupWeight vs w⟩ else m)
    ⟨none, 0⟩

/-- `totalWeight > 0 ? weightedScore / totalWeight : 0.5` (the empty list is
also returned early with `0.5`). -/
def averageWeightedScore (vs : List Verification) : ℚ :=
  if 0 < totalWeight vs then weightedScoreSum vs / totalWeight vs else 1/2

/-- Consensus needs `verifications.length >= 3` and
`dominantVerdictData.weight / totalWeight >= 0.6`. -/
def consensusReached (vs : List Verification) : Bool :=
  decide (3 ≤ vs.length) &&
    decide ((3 : ℚ)/5 ≤ (dominantFold vs).weight / totalWeight vs)

/-- `weighted_reliability_score: Math.max(0, Math.min(1,
averageWeightedScore))`. -/
def weightedReliabilityScore (vs : List Verification) : ℚ :=
  clamp01 (averageWeightedScore vs)

/-- The handler's effect on the claim's reliability score: it is PATCHed to
the consensus `weighted_reliability_score` only when
`consensusAnalysis.consensus_reached` holds; otherwise it is left as is. -/
def updateClaimScore (old : ℚ) (vs : List Verification) : ℚ :=
  if consensusReached vs then weightedReliabilityScore vs else old

theorem foldl_add_map (f : Verification → ℚ) (l : List Verification) (a : ℚ) :
    l.foldl (fun s v => s + f v) a = a + (l.map f).sum := by
  induction l generalizing a with
  | nil => simp
  | cons x xs ih =>
    rw [List.foldl_cons, ih, List.map_cons, List.sum_cons]
    ring

theorem totalWeight_eq_length (vs : List Verification) :
    totalWeight vs = (vs.length : ℚ) := by
  have aux : ∀ (l : List Verification) (a : ℚ),
      l.foldl (fun t _ => t + verifierWeight) a = a + l.length := by
    intro l
    induction l with
    | nil => intro a; simp
    | cons x xs ih =>
      intro a
      rw [List.foldl_cons, ih]
      rw [verifierWeight]
      push_cast [List.length_cons]
      ring
  have h := aux vs 0
  unfold totalWeight
  rw [h, zero_add]

theorem weightedScoreSum_eq_sum (vs : List Verification) :
    weightedScoreSum vs =
      (vs.map fun v => verdictScore v.verdict * v.confidence_score *
        verifierWeight).sum := by
  have h := foldl_add_map
    (fun v => verdictScore v.verdict * v.confidence_score * verifierWeight)
    vs 0
  unfold weightedScoreSum
  rw [h, zero_add]

theorem dominantFold_aux (vs : List Verification) (l : List Verdict)
    (m : DominantAcc) :
    m.weight ≤ (l.foldl
        (fun m w =>
          if groupWeight vs w > m.weight then
            (⟨some w, groupWeight vs w⟩ : DominantAcc)
          else m) m).weight ∧
      ∀ w ∈ l, groupWeight vs w ≤ (l.foldl
        (fun m w =>
          if groupWeight vs w > m.weight then
            (⟨some w, groupWeight vs w⟩ : DominantAcc)
          else m) m).weight := by
  induction l generalizing m with
  | nil => exact ⟨le_refl _, by simp⟩
  | cons x xs ih =>
    have hstep : m.weight ≤ (if groupWeight vs x > m.weight then
          (⟨some x, groupWeight vs x⟩ : DominantAcc) else m).weight ∧
        groupWeight vs x ≤ (if groupWeight vs x > m.weight then
          (⟨some x, groupWeight vs x⟩ : DominantAcc) else m).weight := by
      by_cases h : groupWeight vs x > m.weight
      · rw [if_pos h]
        exact ⟨le_of_lt h, le_refl _⟩
      · rw [if_neg h]
        exact ⟨le_refl _, le_of_not_lt h⟩
    obtain ⟨ih1, ih2⟩ := ih (if groupWeight vs x > m.weight then
      ⟨some x, groupWeight vs x⟩ else m)
    rw [List.foldl_cons]
    refine ⟨le_trans hstep.1 ih1, ?_⟩
    intro w hw
    rcases List.mem_cons.mp hw with hw | hw
    · subst hw
      exact le_trans hstep.2 ih1
    · exact ih2 w hw

theorem presentVerdicts_aux (l : List Verification) (acc : List Verdict) :
    (∀ x ∈ acc, x ∈ l.foldl
        (fun acc v =>
          if v.verdict ∈ acc then acc else acc ++ [v.verdict]) acc) ∧
      ∀ v ∈ l, v.verdict ∈ l.foldl
        (fun acc v =>
          if v.verdict ∈ acc then acc else acc ++ [v.verdict]) acc := by
  induction l generalizing acc with
  | nil => exact ⟨fun x hx => hx, by simp⟩
  | cons y ys ih =>
    have hkeep : ∀ x ∈ acc, x ∈
        (if y.verdict ∈ acc then acc else acc ++ [y.verdict]) := by
      intro x hx
      by_cases h : y.verdict ∈ acc
      · rw [if_pos h]; exact hx
      · rw [if_neg h]; exact List.mem_append_left _ hx
    have hself : y.verdict ∈
        (if y.verdict ∈ acc then acc else acc ++ [y.verdict]) := by
      by_cases h : y.verdict ∈ acc
      · rw [if_pos h]; exact h
      · rw [if_neg h]
        exact List.mem_append_right _ (List.mem_singleton.mpr rfl)
    obtain ⟨ih1, ih2⟩ := ih (if y.verdict ∈ acc then acc
      else acc ++ [y.verdict])
    rw [List.foldl_cons]
    refine ⟨fun x hx => ih1 x (hkeep x hx), ?_⟩
    intro v hv
    rcases List.mem_cons.mp hv with hv | hv
    · subst hv
      exact ih1 v.verdict hself
    · exact ih2 v hv

theorem verdict_mem_presentVerdicts {vs : List Verification}
    {v : Verification} (h : v ∈ vs) : v.verdict ∈ presentVerdicts vs :=
  (presentVerdicts_aux vs []).2 v h

theorem groupWeight_eq_zero_of_not_present {vs : List Verification}
    {w : Verdict} (h : w ∉ presentVerdicts vs) : groupWeight vs w = 0 := by
  unfold groupWeight
  have hfil : vs.filter (fun v => v.verdict = w) = [] := by
    rcases hn : vs.filter (fun v => v.verdict = w) with _ | ⟨x, xs⟩
    · exact hn
    · exfalso
      have hx : x ∈ vs.filter (fun v => v.verdict = w) := by
        rw [hn]; exact List.mem_cons_self x xs
      have hmem := List.mem_of_mem_filter hx
      have hvd : x.verdict = w := by
        have := List.of_mem_filter hx
        exact of_decide_eq_true this
      exact h (hvd ▸ verdict_mem_presentVerdicts hmem)
  rw [hfil]
  simp

theorem dominantFold_is_max (vs : List Verification) (w : Verdict) :
    groupWeight vs w ≤ (dominantFold vs).weight := by
  by_cases h : w ∈ presentVerdicts vs
  · exact (dominantFold_aux vs (presentVerdicts vs) ⟨none, 0⟩).2 w h
  · rw [groupWeight_eq_zero_of_not_present h]
    exact (dominantFold_aux vs (presentVerdicts vs) ⟨none, 0⟩).1

/-- C2: consensus is reached iff there are at least `3` verifications and the
dominant verdict group (whose weight dominates every verdict group) holds at
least `3/5` of the total weight; on consensus the claim score is overwritten
with the weighted consensus score, and with fewer than `3` verifications no
consensus is reached and the score is unchanged. -/
theorem C2_consensus_iff_and_score_update (vs : List Verification) (old : ℚ) :
    (consensusReached vs = true ↔
        3 ≤ vs.length ∧
          (3 : ℚ)/5 ≤ (dominantFold vs).weight / totalWeight vs) ∧
      (∀ w, groupWeight vs w ≤ (dominantFold vs).weight) ∧
      (consensusReached vs = true →
        updateClaimScore old vs = weightedReliabilityScore vs) ∧
      (vs.length < 3 →
        consensusReached vs = false ∧ updateClaimScore old vs = old) := by
  refine ⟨?_, dominantFold_is_max vs, ?_, ?_⟩
  · simp [consensusReached]
  · intro h
    unfold updateClaimScore
    rw [if_pos h]
  · intro h
    have hfalse : consensusReached vs = false := by
      unfold consensusReached
      have : ¬ (3 ≤ vs.length) := not_le.mpr h
      simp [this]
    refine ⟨hfalse, ?_⟩
    unfold updateClaimScore
    rw [hfalse]
    simp

/-- Witness for C2: two verifications (verdicts True and False, confidence
`1`) never reach consensus and leave the score `3/10` unchanged. -/
theorem C2_consensus_iff_and_score_update_witness :
    consensusReached [⟨Verdict.vTrue, 1⟩, ⟨Verdict.vFalse, 1⟩] = false ∧
      updateClaimScore (3/10) [⟨Verdict.vTrue, 1⟩, ⟨Verdict.vFalse, 1⟩]
        = 3/10 :=
  (C2_consensus_iff_and_score_update
    [⟨Verdict.vTrue, 1⟩, ⟨Verdict.vFalse, 1⟩] (3/10)).2.2.2 (by norm_num)

/-- The concrete consensus example of the spec: verdicts True, True, False,
each with confidence `0.8`. -/
def exampleVerifications : List Verification :=
  [⟨Verdict.vTrue, 4/5⟩, ⟨Verdict.vTrue, 4/5⟩, ⟨Verdict.vFalse, 4/5⟩]

/-- C4, counterexample: on the True/True/False example with confidence `0.8`
each, the code's weighted score is `(0.9·0.8 + 0.9·0.8 + 0.1·0.8)/3 = 38/75 ≈
0.5067`, which is not the `0.504` asserted by the claim. -/
theorem C4_counterexample_weighted_score_value :
    weightedReliabilityScore exampleVerifications =
        (9/10 * (4/5) + 9/10 * (4/5) + 1/10 * (4/5)) / 3 ∧
      weightedReliabilityScore exampleVerifications ≠ 504/1000 := by
  constructor <;>
    norm_num [weightedReliabilityScore, averageWeightedScore,
      weightedScoreSum, totalWeight, clamp01, exampleVerifications,
      verdictScore, verifierWeight]

/-- C4, amended: the consensus weighted score is
`Σ(anchor·confidence·weight)/Σweight` (anchors True=0.9, False=0.1,
Mixed=0.5, Misleading=0.3, Unverified=0.5, weight `1` per verifier); on the
True/True/False example with confidence `0.8` each the dominant verdict is
True, the agreement is `2/3 ≥ 0.6`, consensus is reached and the weighted
score is exactly `38/75 ≈ 0.5067`. -/
theorem C4_weighted_score_amended (vs : List Verification) (h : vs ≠ []) :
    averageWeightedScore vs =
        (vs.map fun v => verdictScore v.verdict * v.confidence_score *
          verifierWeight).sum / (vs.length : ℚ) ∧
      (dominantFold exampleVerifications).verdict = some Verdict.vTrue ∧
      groupWeight exampleVerifications Verdict.vTrue /
          totalWeight exampleVerifications = 2/3 ∧
      ((3 : ℚ)/5 ≤ 2/3) ∧
      consensusReached exampleVerifications = true ∧
      weightedReliabilityScore exampleVerifications = 38/75 := by
  have hlen : 0 < vs.length := List.length_pos.mpr h
  have hq : (0 : ℚ) < (vs.length : ℚ) := by exact_mod_cast hlen
  refine ⟨?_, ?_, ?_, by norm_num, ?_, ?_⟩
  · unfold averageWeightedScore
    rw [totalWeight_eq_length, if_pos hq, weightedScoreSum_eq_sum]
  · simp [dominantFold, presentVerdicts, exampleVerifications,
      groupWeight, verifierWeight, List.filter_cons, List.filter_nil]
  · simp [groupWeight, totalWeight, exampleVerifications, verifierWeight,
      List.filter_cons, List.filter_nil]
    norm_num
  · simp [consensusReached, dominantFold, presentVerdicts,
      exampleVerifications, groupWeight, totalWeight, verifierWeight,
      List.filter_cons, List.filter_nil]
    norm_num
  · norm_num [weightedReliabilityScore, averageWeightedScore,
      weightedScoreSum, totalWeight, clamp01, exampleVerifications,
      verdictScore, verifierWeight]

/-- Witness for C4 at the concrete example list. -/
theorem C4_weighted_score_amended_witness :
    averageWeightedScore exampleVerifications =
      (exampleVerifications.map fun v =>
        verdictScore v.verdict * v.confidence_score * verifierWeight).sum /
        (exampleVerifications.length : ℚ) :=
  (C4_weighted_score_amended exampleVerifications (by
    simp [exampleVerifications])).1

/-! ## Orchestrator error isolation (process-claim handler, agent-logic.ts)

The handler executes the six agent steps in order inside a `for` loop.  Each
iteration runs `executeAgentStep` with the accumulated `previousOutputs`;
`catch (stepError)` marks that step `failed` and stores
`{error, confidence: 0.0}` in `processingResults`, and the loop continues.
After the loop the claim row is PATCHed with `status: 'completed'` and
`reliability_score: finalReliabilityScore` (which stays at its initial `0.5`
unless the `reliability_scoring` step succeeded and produced a
`reliability_score`). -/

/-- The six pipeline stage names, in execution order. -/
inductive StageName where
  | claim_detection
  | content_analysis
  | fact_checking
  | source_validation
  | cross_referencing
  | reliability_scoring
deriving DecidableEq, Repr, BEq

/-- `agentSteps` — the fixed stage order of the handler. -/
def stageOrder : List StageName :=
  [.claim_detection, .content_analysis, .fact_checking, .source_validation,
    .cross_referencing, .reliability_scoring]

/-- The part of a successful step result that the orchestrator inspects: its
`confidence`, its optional `reliability_score` (only present on the scorer
step), and an opaque payload standing for the rest of the structured
output. -/
structure StageResult where
  confidence : ℚ
  reliability_score : Option ℚ
  payload : ℕ
deriving DecidableEq, Repr

/-- What the workflow row / `processingResults` records for one step: the
full successful output, or the caught message of a thrown error. -/
inductive StepRecord where
  | completed (output : StageResult)
  | failed (error_message : String)
deriving DecidableEq, Repr

/-- The `confidence` stored in `processingResults` for a step: the result's
own confidence on success, `0.0` from the `catch` block on failure. -/
def recordedConfidence : StepRecord → ℚ
  | .completed r => r.confidence
  | .failed _ => 0

/-- The `for` loop: each step receives the records accumulated so far (the
embedding of `previousOutputs`); a thrown error is caught, recorded and the
loop continues with the next step. -/
def processSteps (exec : StageName → List (StageName × StepRecord) →
      Except String StageResult) :
    List StageName → List (StageName × StepRecord) →
      List (StageName × StepRecord)
  | [], acc => acc
  | s :: rest, acc =>
    processSteps exec rest
      (acc ++ [(s, match exec s acc with
        | .ok r => .completed r
        | .error e => .failed e)])

/-- `finalReliabilityScore`: `0.5` unless the `reliability_scoring` step
completed with a defined `reliability_score`. -/
def finalScoreOf (steps : List (StageName × StepRecord)) : ℚ :=
  match steps.lookup StageName.reliability_scoring with
  | some (.completed r) =>
    match r.reliability_score with
    | some v => v
    | none => 1/2
  | _ => 1/2

/-- The run outcome the handler persists: the per-step records, the final
claim `status` and the final `reliability_score`. -/
structure RunOutcome where
  steps : List (StageName × StepRecord)
  claim_status : String
  reliability_score : ℚ
deriving DecidableEq, Repr

/-- The whole handler loop plus the final claim PATCH: the claim status is
set to `"completed"` unconditionally after the loop. -/
def processClaim (exec : StageName → List (StageName × StepRecord) →
    Except String StageResult) : RunOutcome :=
  { steps := processSteps exec stageOrder []
    claim_status := "completed"
    reliability_score := finalScoreOf (processSteps exec stageOrder []) }

theorem processSteps_keeps_acc {exec} (names : List StageName)
    (acc : List (StageName × StepRecord)) {p : StageName × StepRecord}
    (h : p ∈ acc) : p ∈ processSteps exec names acc := by
  induction names generalizing acc with
  | nil => exact h
  | cons s rest ih =>
    exact ih _ (List.mem_append_left _ h)

theorem processSteps_mem_of_name (exec : StageName →
      List (StageName × StepRecord) → Except String StageResult)
    (names : List StageName)
    (acc : List (StageName × StepRecord)) {s : StageName} (h : s ∈ names) :
    ∃ acc2, (s, match exec s acc2 with
      | .ok r => StepRecord.completed r
      | .error e => StepRecord.failed e) ∈ processSteps exec names acc := by
  induction names generalizing acc with
  | nil => cases h
  | cons x rest ih =>
    rcases List.mem_cons.mp h with h | h
    · subst h
      refine ⟨acc, ?_⟩
      show _ ∈ processSteps exec rest _
      exact processSteps_keeps_acc rest _
        (List.mem_append_right _ (List.mem_singleton.mpr rfl))
    · exact ih _ h

/-- C3: if one stage always throws (and every other stage succeeds whatever
its inputs), the run records that stage as failed with the thrown message and
a stored confidence of `0`, every other stage still contributes a completed
output, and the final claim status is `"completed"`, not failed. -/
theorem C3_single_stage_failure_is_isolated
    (exec : StageName → List (StageName × StepRecord) →
      Except String StageResult)
    (s0 : StageName) (e : String)
    (hfail : ∀ acc, exec s0 acc = Except.error e)
    (hok : ∀ s acc, s ≠ s0 → ∃ r, exec s acc = Except.ok r) :
    (processClaim exec).claim_status = "completed" ∧
      (s0, StepRecord.failed e) ∈ (processClaim exec).steps ∧
      recordedConfidence (StepRecord.failed e) = 0 ∧
      ∀ s, s ≠ s0 → ∃ r, (s, StepRecord.completed r) ∈
        (processClaim exec).steps := by
  have hall : ∀ s : StageName, s ∈ stageOrder := by
    intro s
    cases s <;> simp [stageOrder]
  refine ⟨rfl, ?_, rfl, ?_⟩
  · obtain ⟨acc2, hmem⟩ := processSteps_mem_of_name exec
      stageOrder [] (hall s0)
    rw [hfail acc2] at hmem
    exact hmem
  · intro s hs
    obtain ⟨acc2, hmem⟩ := processSteps_mem_of_name exec
      stageOrder [] (hall s)
    obtain ⟨r, hr⟩ := hok s acc2 hs
    rw [hr] at hmem
    exact ⟨r, hmem⟩

/-- A concrete executor whose fact-checking step always throws. -/
def execWithFactCheckFailure (s : StageName)
    (_acc : List (StageName × StepRecord)) : Except String StageResult :=
  if s = StageName.fact_checking then Except.error "network timeout"
  else Except.ok ⟨7/10, if s = StageName.reliability_scoring then
    some (21/50) else none, 0⟩

/-- Witness for C3 at the concrete failing executor. -/
theorem C3_single_stage_failure_is_isolated_witness :
    (processClaim execWithFactCheckFailure).claim_status = "completed" ∧
      (StageName.fact_checking, StepRecord.failed "network timeout") ∈
        (processClaim execWithFactCheckFailure).steps ∧
      ∃ r, (StageName.claim_detection, StepRecord.completed r) ∈
        (processClaim execWithFactCheckFailure).steps := by
  have h := C3_single_stage_failure_is_isolated execWithFactCheckFailure
    StageName.fact_checking "network timeout"
    (fun acc => by simp [execWithFactCheckFailure])
    (fun s acc hs => ⟨⟨7/10, if s = StageName.reliability_scoring then
        some (21/50) else none, 0⟩, by simp [execWithFactCheckFailure, hs]⟩)
  exact ⟨h.1, h.2.1, h.2.2.2 StageName.claim_detection (by simp)⟩

/-! ## Duplicate verification rejection (community-verify/index.ts)

Before inserting, the handler fetches
`verifications?claim_id=eq.X&verifier_id=eq.U`; if any row exists it returns
a `409` response with code `ALREADY_VERIFIED` carrying
`existing_verification_id: existing[0].id` and never reaches the insert. -/

/-- A stored verification row. -/
structure VerificationRow where
  id : ℕ
  claim_id : String
  verifier_id : String
  verdict : Verdict
  confidence_score : ℚ
deriving DecidableEq, Repr

/-- The error responses of the handler that matter here: the input
validation `throw` and the `409 ALREADY_VERIFIED` conflict carrying the
existing row id. -/
inductive SubmitError where
  | invalidConfidence
  | alreadyVerified (existing_verification_id : ℕ)
deriving DecidableEq, Repr

/-- The handler's persistent effect: validate the confidence range, reject a
duplicate `(claim_id, verifier_id)` pair with the existing row's id, or
insert the new row and return its id. -/
def submitVerification (db : List VerificationRow)
    (claim_id verifier_id : String) (verdict : Verdict)
    (confidence_score : ℚ) (newId : ℕ) :
    Except SubmitError (List VerificationRow × ℕ) :=
  if confidence_score < 0 ∨ 1 < confidence_score then
    .error .invalidConfidence
  else
    match db.filter fun r =>
        r.claim_id = claim_id ∧ r.verifier_id = verifier_id with
    | [] =>
      .ok (db ++ [⟨newId, claim_id, verifier_id, verdict,
        confidence_score⟩], newId)
    | r :: _ => .error (.alreadyVerified r.id)

/-- C5: if the database already holds a verification of this claim by this
verifier, a second in-range submission is rejected with the conflict error
carrying an existing verification's id, and no insertion happens (no `ok`
state is ever produced). -/
theorem C5_duplicate_verification_rejected (db : List VerificationRow)
    (c u : String) (vd : Verdict) (conf : ℚ) (newId : ℕ)
    (hc0 : 0 ≤ conf) (hc1 : conf ≤ 1)
    (hex : ∃ r ∈ db, r.claim_id = c ∧ r.verifier_id = u) :
    (∃ r ∈ db, r.claim_id = c ∧ r.verifier_id = u ∧
        submitVerification db c u vd conf newId =
          .error (.alreadyVerified r.id)) ∧
      ∀ db2 id2, submitVerification db c u vd conf newId ≠
        .ok (db2, id2) := by
  have hrange : ¬ (conf < 0 ∨ 1 < conf) := by
    push_neg
    exact ⟨hc0, hc1⟩
  have hfil : db.filter (fun r => r.claim_id = c ∧ r.verifier_id = u) ≠
      [] := by
    obtain ⟨r, hr, hrc, hru⟩ := hex
    intro hnil
    have : r ∈ db.filter (fun r => r.claim_id = c ∧ r.verifier_id = u) :=
      List.mem_filter.mpr ⟨hr, by simp [hrc, hru]⟩
    rw [hnil] at this
    cases this
  rcases hcons : db.filter (fun r => r.claim_id = c ∧ r.verifier_id = u)
    with _ | ⟨r0, rest⟩
  · exact absurd hcons hfil
  · have hr0 : r0 ∈ db.filter
        (fun r => r.claim_id = c ∧ r.verifier_id = u) := by
      rw [hcons]
      exact List.mem_cons_self r0 rest
    have hr0mem := List.mem_of_mem_filter hr0
    have hr0prop : r0.claim_id = c ∧ r0.verifier_id = u := by
      have := List.of_mem_filter hr0
      exact of_decide_eq_true this
    have hval : submitVerification db c u vd conf newId =
        .error (.alreadyVerified r0.id) := by
      unfold submitVerification
      rw [if_neg hrange, hcons]
    refine ⟨⟨r0, hr0mem, hr0prop.1, hr0prop.2, hval⟩, ?_⟩
    intro db2 id2
    rw [hval]
    intro hcontra
    cases hcontra

/-- Witness for C5: with one stored verification of claim `"c1"` by verifier
`"alice"`, a second submission by `"alice"` is the conflict error with the
stored row's id `7`. -/
theorem C5_duplicate_verification_rejected_witness :
    submitVerification [⟨7, "c1", "alice", Verdict.vTrue, 9/10⟩]
        "c1" "alice" Verdict.vFalse (1/2) 8 =
      .error (.alreadyVerified 7) := by
  obtain ⟨⟨r, hr, hrc, hru, hval⟩, -⟩ :=
    C5_duplicate_verification_rejected
      [⟨7, "c1", "alice", Verdict.vTrue, 9/10⟩] "c1" "alice"
      Verdict.vFalse (1/2) 8 (by norm_num) (by norm_num)
      ⟨⟨7, "c1", "alice", Verdict.vTrue, 9/10⟩, by simp, rfl, rfl⟩
  have hr7 : r = ⟨7, "c1", "alice", Verdict.vTrue, 9/10⟩ :=
    List.mem_singleton.mp hr
  rw [hval, hr7]

/-! ## Clarification coordinator (clarification-manager/index.ts)

`create` inserts a row with `status: 'pending'` and
`expires_at = Date.now() + timeout_seconds * 1000`; `respond` fetches the
row by `request_id`, throws `'Clarification request is no longer pending'`
when its status is not `pending`, and otherwise PATCHes it to `completed`
with the response and `response_time_seconds`, writes a
`clarification_responded` audit event and re-invokes the workflow function
(resume).  The `GET pending` action selects exactly the rows with
`status=eq.pending` — it never consults `expires_at` and never mutates any
row.  Timestamps are millisecond epochs (`ℤ`). -/

/-- The status values of `clarification_requests.status`. -/
inductive CStatus where
  | pending
  | in_progress
  | completed
  | cancelled
  | expired
deriving DecidableEq, Repr

/-- One `clarification_requests` row (the fields the claims touch). -/
structure ClarificationRequest where
  request_id : String
  claim_id : String
  status : CStatus
  created_at : ℤ
  timeout_seconds : ℤ
  expires_at : ℤ
  response_data : Option String
  response_time_seconds : Option ℚ
deriving DecidableEq, Repr

/-- The persistent state the clarification manager works on. -/
structure ClarificationState where
  requests : List ClarificationRequest
  audit_events : List String
  workflow_resumes : ℕ
deriving DecidableEq, Repr

/-- The row built by the `create` action:
`requestId = clarify_<claim>_<Date.now()>`,
`expiresAt = Date.now() + timeout_seconds * 1000`, status `pending`. -/
def newClarificationRequest (claim_id : String) (timeout_seconds now : ℤ) :
    ClarificationRequest where
  request_id := "clarify_" ++ claim_id ++ "_" ++ toString now
  claim_id := claim_id
  status := .pending
  created_at := now
  timeout_seconds := timeout_seconds
  expires_at := now + timeout_seconds * 1000
  response_data := none
  response_time_seconds := none

/-- The `create` action: insert the row and write the
`clarification_requested` audit event. -/
def createClarification (st : ClarificationState) (claim_id : String)
    (timeout_seconds now : ℤ) : ClarificationState :=
  { st with
    requests := st.requests ++
      [newClarificationRequest claim_id timeout_seconds now]
    audit_events := st.audit_events ++ ["clarification_requested"] }

/-- The `GET pending` listing: `clarification_requests?status=eq.pending`
(the optional `claim_id`/`priority` query filters are not used here).  No
`expires_at` condition appears and nothing is written. -/
def listPendingClarifications (st : ClarificationState) :
    List ClarificationRequest :=
  st.requests.filter fun r => r.status = CStatus.pending

/-- The two error outcomes of the `respond` action: request not found, and
`'Clarification request is no longer pending'` (the `AlreadyResolved`
rejection). -/
inductive RespondError where
  | notFound
  | noLongerPending
deriving DecidableEq, Repr

/-- The `respond` action: fetch by `request_id` (`limit=1`), reject when the
row's status is not `pending`, otherwise set it to `completed` with the
response data and `response_time_seconds = (now - created_at)/1000`, write
the `clarification_responded` audit event, and trigger one workflow
resume. -/
def respondClarification (st : ClarificationState) (request_id : String)
    (response_data : String) (now : ℤ) :
    Except RespondError ClarificationState :=
  match st.requests.filter (fun r => r.request_id = request_id) with
  | [] => .error .notFound
  | r :: _ =>
    if r.status ≠ CStatus.pending then .error .noLongerPending
    else .ok
      { requests := st.requests.map fun q =>
          if q.request_id = request_id then
            { q with
              status := .completed
              response_data := some response_data
              response_time_seconds :=
                some (((now - r.created_at : ℤ) : ℚ) / 1000) }
          else q
        audit_events := st.audit_events ++ ["clarification_responded"]
        workflow_resumes := st.workflow_resumes + 1 }

/-- C6: responding to a request whose status is not `pending` is rejected
with the no-longer-pending (AlreadyResolved) error; a successful response
marks every row with that `request_id` completed, records the response time,
writes the `clarification_responded` audit event, triggers a workflow
resume, and a second respond on the same `request_id` is then rejected with
the same error. -/
theorem C6_respond_only_pending_and_twice_rejected
    (st : ClarificationState) (rid rd rd2 : String) (now now2 : ℤ) :
    (∀ r rest,
        st.requests.filter (fun q => q.request_id = rid) = r :: rest →
        r.status ≠ CStatus.pending →
        respondClarification st rid rd now = .error .noLongerPending) ∧
      ∀ st2, respondClarification st rid rd now = .ok st2 →
        st2.audit_events = st.audit_events ++ ["clarification_responded"] ∧
        st2.workflow_resumes = st.workflow_resumes + 1 ∧
        (∀ q ∈ st2.requests, q.request_id = rid →
          q.status = CStatus.completed) ∧
        (∃ q ∈ st2.requests, q.request_id = rid ∧
          q.status = CStatus.completed ∧
          q.response_time_seconds =
            some (((now - q.created_at : ℤ) : ℚ) / 1000)) ∧
        respondClarification st2 rid rd2 now2 =
          .error .noLongerPending := by
  constructor
  · intro r rest hfil hst
    unfold respondClarification
    rw [hfil]
    simp only [if_pos hst]
  · intro st2 hok
    rcases hcons : st.requests.filter (fun q => q.request_id = rid)
      with _ | ⟨r, rest⟩
    · unfold respondClarification at hok
      rw [hcons] at hok
      cases hok
    · have hrfil : r ∈ st.requests.filter
          (fun q => q.request_id = rid) := by
        rw [hcons]
        exact List.mem_cons_self r rest
      have hrmem := List.mem_of_mem_filter hrfil
      have hrid : r.request_id = rid :=
        of_decide_eq_true (List.mem_filter.mp hrfil).2
      by_cases hst : r.status ≠ CStatus.pending
      · unfold respondClarification at hok
        rw [hcons] at hok
        simp only [if_pos hst] at hok
        cases hok
      · unfold respondClarification at hok
        rw [hcons] at hok
        simp only [if_neg hst] at hok
        have hst2 : st2 =
            { requests := st.requests.map fun q =>
                if q.request_id = rid then
                  { q with
                    status := CStatus.completed
                    response_data := some rd
                    response_time_seconds :=
                      some (((now - r.created_at : ℤ) : ℚ) / 1000) }
                else q
              audit_events :=
                st.audit_events ++ ["clarification_responded"]
              workflow_resumes := st.workflow_resumes + 1 } :=
          (Except.ok.injEq _ _).mp hok.symm
        subst hst2
        have hcompleted : ∀ q ∈ (st.requests.map fun q =>
            if q.request_id = rid then
              { q with
                status := CStatus.completed
                response_data := some rd
                response_time_seconds :=
                  some (((now - r.created_at : ℤ) : ℚ) / 1000) }
            else q), q.request_id = rid →
            q.status = CStatus.completed := by
          intro q hq hqid
          obtain ⟨a, ha, rfl⟩ := List.mem_map.mp hq
          by_cases hcase : a.request_id = rid
          · simp only [if_pos hcase]
          · rw [if_neg hcase] at hqid ⊢
            exact absurd hqid hcase
        have hupd : (if r.request_id = rid then
            { r with
              status := CStatus.completed
              response_data := some rd
              response_time_seconds :=
                some (((now - r.created_at : ℤ) : ℚ) / 1000) }
            else r) = { r with
              status := CStatus.completed
              response_data := some rd
              response_time_seconds :=
                some (((now - r.created_at : ℤ) : ℚ) / 1000) } :=
          if_pos hrid
        have hupdmem : ({ r with
            status := CStatus.completed
            response_data := some rd
            response_time_seconds :=
              some (((now - r.created_at : ℤ) : ℚ) / 1000) } :
              ClarificationRequest) ∈
            st.requests.map fun q =>
              if q.request_id = rid then
                { q with
                  status := CStatus.completed
                  response_data := some rd
                  response_time_seconds :=
                    some (((now - r.created_at : ℤ) : ℚ) / 1000) }
              else q :=
          hupd ▸ List.mem_map_of_mem _ hrmem
        refine ⟨rfl, rfl, hcompleted, ⟨_, hupdmem, hrid, rfl, rfl⟩, ?_⟩
        rcases hcons2 : (st.requests.map fun q =>
            if q.request_id = rid then
              { q with
                status := CStatus.completed
                response_data := some rd
                response_time_seconds :=
                  some (((now - r.created_at : ℤ) : ℚ) / 1000) }
            else q).filter (fun q => q.request_id = rid)
          with _ | ⟨r2, rest2⟩
        · exfalso
          have : ({ r with
              status := CStatus.completed
              response_data := some rd
              response_time_seconds :=
                some (((now - r.created_at : ℤ) : ℚ) / 1000) } :
                ClarificationRequest) ∈ (st.requests.map fun q =>
              if q.request_id = rid then
                { q with
                  status := CStatus.completed
                  response_data := some rd
                  response_time_seconds :=
                    some (((now - r.created_at : ℤ) : ℚ) / 1000) }
                else q).filter (fun q => q.request_id = rid) :=
            List.mem_filter.mpr ⟨hupdmem, by simp [hrid]⟩
          rw [hcons2] at this
          cases this
        · have hr2fil : r2 ∈ (st.requests.map fun q =>
              if q.request_id = rid then
                { q with
                  status := CStatus.completed
                  response_data := some rd
                  response_time_seconds :=
                    some (((now - r.created_at : ℤ) : ℚ) / 1000) }
                else q).filter (fun q => q.request_id = rid) := by
            rw [hcons2]
            exact List.mem_cons_self r2 rest2
          have hr2c : r2.status = CStatus.completed :=
            hcompleted r2 (List.mem_of_mem_filter hr2fil)
              (of_decide_eq_true (List.mem_filter.mp hr2fil).2)
          show respondClarification _ rid rd2 now2 = _
          unfold respondClarification
          rw [hcons2]
          have : r2.status ≠ CStatus.pending := by
            rw [hr2c]
            intro hcontra
            cases hcontra
          simp only [if_pos this]

/-- A state holding one pending clarification request. -/
def examplePendingState : ClarificationState where
  requests := [{ request_id := "clarify_c1_0",
                 claim_id := "c1",
                 status := CStatus.pending,
                 created_at := 0,
                 timeout_seconds := 3600,
                 expires_at := 3600000,
                 response_data := none,
                 response_time_seconds := none }]
  audit_events := []
  workflow_resumes := 0

/-- Witness for C6: responding twice to the one pending request succeeds
first and is rejected second. -/
theorem C6_respond_only_pending_and_twice_rejected_witness :
    ∃ st2, respondClarification examplePendingState "clarify_c1_0" "yes"
        5000 = .ok st2 ∧
      respondClarification st2 "clarify_c1_0" "again" 6000 =
        .error RespondError.noLongerPending := by
  have hok : respondClarification examplePendingState "clarify_c1_0" "yes"
      5000 = .ok
      { requests := [{ request_id := "clarify_c1_0",
                       claim_id := "c1",
                       status := CStatus.completed,
                       created_at := 0,
                       timeout_seconds := 3600,
                       expires_at := 3600000,
                       response_data := some "yes",
                       response_time_seconds :=
                         some (((5000 - (0 : ℤ)) : ℚ) / 1000) }],
        audit_events := ["clarification_responded"],
        workflow_resumes := 1 } := by
    simp [respondClarification, examplePendingState]
  refine ⟨_, hok, ?_⟩
  exact ((C6_respond_only_pending_and_twice_rejected examplePendingState
    "clarify_c1_0" "yes" "again" 5000 6000).2 _ hok).2.2.2.2

/-- The empty clarification state. -/
def emptyClarState : ClarificationState where
  requests := []
  audit_events := []
  workflow_resumes := 0

/-- C7, counterexample: a request created with `timeout_seconds = 1` at time
`0` carries `expires_at = 1000`; at time `2000` — well past expiry — the
pending listing still contains it and its status is still `pending`: no
sweep or lazy expiry check exists anywhere in the code. -/
theorem C7_counterexample_expired_request_still_listed :
    newClarificationRequest "c1" 1 0 ∈
        listPendingClarifications
          (createClarification emptyClarState "c1" 1 0) ∧
      (newClarificationRequest "c1" 1 0).expires_at = 1000 ∧
      (newClarificationRequest "c1" 1 0).expires_at < 2000 ∧
      (newClarificationRequest "c1" 1 0).status = CStatus.pending := by
  refine ⟨?_, by norm_num [newClarificationRequest],
    by norm_num [newClarificationRequest], rfl⟩
  apply List.mem_filter.mpr
  constructor
  · simp [createClarification, emptyClarState]
  · simp [newClarificationRequest]

/-- C7, amended: `create` stores the request with status `Pending` and
`expires_at = now + timeout_seconds·1000`; the pending listing returns
exactly the requests whose status is `Pending` regardless of `expires_at` —
a `Pending` request past its expiry is still listed and keeps status
`Pending`, since no transition to `Expired` exists. -/
theorem C7_create_expiry_and_listing_amended (st : ClarificationState)
    (cid : String) (timeout now : ℤ) (r : ClarificationRequest) :
    (∃ q ∈ (createClarification st cid timeout now).requests,
        q.claim_id = cid ∧ q.status = CStatus.pending ∧
        q.created_at = now ∧ q.expires_at = now + timeout * 1000) ∧
      (r ∈ listPendingClarifications st ↔
        r ∈ st.requests ∧ r.status = CStatus.pending) := by
  constructor
  · refine ⟨newClarificationRequest cid timeout now, ?_, rfl, rfl, rfl, rfl⟩
    exact List.mem_append_right _ (List.mem_singleton.mpr rfl)
  · constructor
    · intro h
      exact ⟨List.mem_of_mem_filter h,
        of_decide_eq_true (List.mem_filter.mp h).2⟩
    · rintro ⟨h1, h2⟩
      exact List.mem_filter.mpr ⟨h1, by simp [h2]⟩

/-- A pending request whose expiry (`1000`) lies long in the past. -/
def expiredPendingRequest : ClarificationRequest where
  request_id := "clarify_c9_0"
  claim_id := "c9"
  status := CStatus.pending
  created_at := 0
  timeout_seconds := 1
  expires_at := 1000
  response_data := none
  response_time_seconds := none

/-- Witness for C7 (amended): the long-expired pending request is still
returned by the pending listing. -/
theorem C7_create_expiry_and_listing_amended_witness :
    expiredPendingRequest ∈ listPendingClarifications
      ⟨[expiredPendingRequest], [], 0⟩ :=
  ((C7_create_expiry_and_listing_amended ⟨[expiredPendingRequest], [], 0⟩
    "c9" 1 0 expiredPendingRequest).2).mpr
    ⟨List.mem_singleton.mpr rfl, rfl⟩

/-! ## Source validator confidence (`executeSourceValidator`, agent-logic.ts)

The stage resolves one credibility score per provided URL — from the
`sources` table cache when present, otherwise from
`assessSourceCredibility`'s domain heuristics — and then sets
`confidence = Math.min(sum / (sourceValidations.length || 1), 1.0)`.
`credOf` abstracts the per-URL credibility resolution (a database /
collaborator lookup); the aggregation below is the source's own. -/

/-- The stage `confidence`:
`Math.min(sourceValidations.reduce((sum, s) => sum + s.credibility_score, 0)
/ (sourceValidations.length || 1), 1.0)` — note `length || 1` maps the empty
case to a divisor of `1`, so no sources give `0/1 = 0`. -/
def executeSourceValidator (credOf : String → ℚ)
    (source_urls : List String) : ℚ :=
  min ((source_urls.map credOf).foldl (fun s x => s + x) 0 /
    (if (source_urls.map credOf).length = 0 then 1
      else ((source_urls.map credOf).length : ℚ))) 1

theorem foldl_add_rat (l : List ℚ) (a : ℚ) :
    l.foldl (fun s x => s + x) a = a + l.sum := by
  induction l generalizing a with
  | nil => simp
  | cons x xs ih =>
    rw [List.foldl_cons, ih, List.sum_cons]
    ring

theorem sum_le_length_of_le_one (l : List ℚ) (h : ∀ x ∈ l, x ≤ 1) :
    l.sum ≤ (l.length : ℚ) := by
  induction l with
  | nil => simp
  | cons x xs ih =>
    rw [List.sum_cons, List.length_cons]
    push_cast
    have hx := h x (List.mem_cons_self x xs)
    have hxs := ih fun y hy => h y (List.mem_cons_of_mem x hy)
    linarith

/-- C8, counterexample: with no source URLs the stage confidence is `0`
(`0 / (0 || 1) = 0`), not the `0.5` default the claim asserts. -/
theorem C8_counterexample_no_sources_gives_zero :
    executeSourceValidator (fun _ => 1/2) [] = 0 ∧ (0 : ℚ) ≠ 1/2 := by
  constructor
  · norm_num [executeSourceValidator]
  · norm_num

/-- C8, amended: for per-URL credibility scores in `[0,1]`, the stage
confidence equals the average credibility across the provided source URLs
(the cap at `1` never binds), but with no source URLs it is `0`, not `0.5`
(downstream, the reliability scorer's `|| 0.5` fallback turns that `0` into
a factor of `0.5`). -/
theorem C8_confidence_is_average_amended (credOf : String → ℚ)
    (source_urls : List String)
    (hb : ∀ u ∈ source_urls, 0 ≤ credOf u ∧ credOf u ≤ 1) :
    (source_urls ≠ [] →
        executeSourceValidator credOf source_urls =
          (source_urls.map credOf).sum / (source_urls.length : ℚ)) ∧
      (source_urls = [] →
        executeSourceValidator credOf source_urls = 0) := by
  constructor
  · intro hne
    have hlen0 : source_urls.length ≠ 0 :=
      fun hc => hne (List.length_eq_zero.mp hc)
    have hlenpos : 0 < source_urls.length := Nat.pos_of_ne_zero hlen0
    have hq : (0 : ℚ) < (source_urls.length : ℚ) := by exact_mod_cast hlenpos
    have hmap_le : ∀ x ∈ source_urls.map credOf, x ≤ 1 := by
      intro x hx
      obtain ⟨u, hu, rfl⟩ := List.mem_map.mp hx
      exact (hb u hu).2
    have hsum_le : (source_urls.map credOf).sum ≤
        (source_urls.length : ℚ) := by
      have h := sum_le_length_of_le_one (source_urls.map credOf) hmap_le
      rwa [List.length_map] at h
    unfold executeSourceValidator
    rw [List.length_map, if_neg hlen0, foldl_add_rat, zero_add]
    exact min_eq_left ((div_le_one hq).mpr hsum_le)
  · intro he
    subst he
    norm_num [executeSourceValidator]

/-- Witness for C8 at two URLs with credibility `9/10` each. -/
theorem C8_confidence_is_average_amended_witness :
    executeSourceValidator (fun _ => 9/10) ["https://a.gov", "https://b.edu"]
      = ((["https://a.gov", "https://b.edu"].map fun _ => (9/10 : ℚ)).sum) /
        (((["https://a.gov", "https://b.edu"] : List String).length : ℕ) :
          ℚ) :=
  (C8_confidence_is_average_amended (fun _ => 9/10)
    ["https://a.gov", "https://b.edu"]
    (fun u _ => ⟨by norm_num, by norm_num⟩)).1 (by simp)

/-! ## Run-status progress projection (real-time progress edge function)

The status query computes, over the run's `agent_workflows` step rows,
`completion_percentage = totalSteps > 0 ? (completedSteps / totalSteps) * 100
: 0`.  The orchestrator only ever moves one step row forward — `pending →
running` when a step starts, `running → completed` on success, `running →
failed` on a caught error — and the clarification manager suspends/resumes
the claim without touching the step rows, so a run's reported percentage
never regresses. -/

/-- The status of one `agent_workflows` step row. -/
inductive StepState where
  | pending
  | running
  | completed
  | failed
deriving DecidableEq, Repr

/-- One run as seen by the status query: its ordered step rows and whether
it is suspended awaiting clarification. -/
structure RunView where
  steps : List StepState
  awaiting_clarification : Bool
deriving DecidableEq, Repr

/-- The database transitions performed on a single run: a step row moves
`pending → running`, `running → completed` or `running → failed` (the
orchestrator), or the run is suspended / resumed for clarification (which
leaves the step rows untouched). -/
inductive RunStep : RunView → RunView → Prop where
  | startStage (l1 l2 : List StepState) (b : Bool) :
      RunStep ⟨l1 ++ StepState.pending :: l2, b⟩
        ⟨l1 ++ StepState.running :: l2, b⟩
  | completeStage (l1 l2 : List StepState) (b : Bool) :
      RunStep ⟨l1 ++ StepState.running :: l2, b⟩
        ⟨l1 ++ StepState.completed :: l2, b⟩
  | failStage (l1 l2 : List StepState) (b : Bool) :
      RunStep ⟨l1 ++ StepState.running :: l2, b⟩
        ⟨l1 ++ StepState.failed :: l2, b⟩
  | suspendRun (l : List StepState) (b : Bool) : RunStep ⟨l, b⟩ ⟨l, true⟩
  | resumeRun (l : List StepState) (b : Bool) : RunStep ⟨l, b⟩ ⟨l, false⟩

/-- `completion_percentage`: `completedSteps / totalSteps * 100` when the
run has step rows, `0` otherwise. -/
def completionPercentage (r : RunView) : ℚ :=
  if 0 < r.steps.length then
    ((r.steps.filter fun s => s = StepState.completed).length : ℚ) /
      (r.steps.length : ℚ) * 100
  else 0

theorem completionPercentage_le_of_runStep {r r2 : RunView}
    (h : RunStep r r2) :
    completionPercentage r ≤ completionPercentage r2 := by
  cases h with
  | startStage l1 l2 b =>
    apply le_of_eq
    unfold completionPercentage
    simp only [List.length_append, List.length_cons, List.filter_append,
      List.filter_cons]
    simp
  | completeStage l1 l2 b =>
    unfold completionPercentage
    have hp1 : 0 < (l1 ++ StepState.running :: l2).length := by simp
    have hp2 : 0 < (l1 ++ StepState.completed :: l2).length := by simp
    rw [if_pos hp1, if_pos hp2]
    have hfil1 : ((l1 ++ StepState.running :: l2).filter
        fun s => s = StepState.completed) =
        (l1.filter fun s => s = StepState.completed) ++
          (l2.filter fun s => s = StepState.completed) := by
      simp [List.filter_append, List.filter_cons]
    have hfil2 : ((l1 ++ StepState.completed :: l2).filter
        fun s => s = StepState.completed) =
        (l1.filter fun s => s = StepState.completed) ++
          StepState.completed ::
            (l2.filter fun s => s = StepState.completed) := by
      simp [List.filter_append, List.filter_cons]
    have hlen : ((l1 ++ StepState.running :: l2).length : ℚ) =
        ((l1 ++ StepState.completed :: l2).length : ℚ) := by
      simp [List.length_append]
    rw [hfil1, hfil2, hlen]
    have hnpos : (0 : ℚ) < ((l1 ++ StepState.completed :: l2).length : ℚ) :=
      by exact_mod_cast hp2
    have hle : (((l1.filter fun s => s = StepState.completed) ++
        (l2.filter fun s => s = StepState.completed)).length : ℚ) ≤
        (((l1.filter fun s => s = StepState.completed) ++
          StepState.completed ::
            (l2.filter fun s => s = StepState.completed)).length : ℚ) := by
      push_cast [List.length_append, List.length_cons]
      linarith
    exact mul_le_mul_of_nonneg_right ((div_le_div_iff_of_pos_right hnpos).mpr hle)
      (by norm_num)
  | failStage l1 l2 b =>
    apply le_of_eq
    unfold completionPercentage
    simp only [List.length_append, List.length_cons, List.filter_append,
      List.filter_cons]
    simp
  | suspendRun l b => exact le_refl _
  | resumeRun l b => exact le_refl _

/-- C9: the `completion_percentage` a status read reports is monotonically
non-decreasing along every chain of run transitions (including suspension,
which freezes it: the percentage does not depend on the suspension flag at
all). -/
theorem C9_completion_percentage_monotone (r r2 : RunView)
    (h : Relation.ReflTransGen RunStep r r2) :
    completionPercentage r ≤ completionPercentage r2 ∧
      ∀ (l : List StepState) (b1 b2 : Bool),
        completionPercentage ⟨l, b1⟩ = completionPercentage ⟨l, b2⟩ := by
  refine ⟨?_, fun l b1 b2 => rfl⟩
  induction h with
  | refl => exact le_refl _
  | tail hsteps hstep ih =>
    exact le_trans ih (completionPercentage_le_of_runStep hstep)

/-- Witness for C9: a two-step run that starts and completes its first
stage, then suspends for clarification. -/
theorem C9_completion_percentage_monotone_witness :
    completionPercentage ⟨[StepState.pending, StepState.pending], false⟩ ≤
      completionPercentage
        ⟨[StepState.completed, StepState.pending], true⟩ :=
  (C9_completion_percentage_monotone
    ⟨[StepState.pending, StepState.pending], false⟩
    ⟨[StepState.completed, StepState.pending], true⟩
    (Relation.ReflTransGen.tail
      (Relation.ReflTransGen.tail
        (Relation.ReflTransGen.single
          (RunStep.startStage [] [StepState.pending] false))
        (RunStep.completeStage [] [StepState.pending] false))
      (RunStep.suspendRun [StepState.completed, StepState.pending]
        false))).1

end AIDetective
